import Mathlib

/-! LCD2004 over I2C: a shallow embedding of `Display.cpp` / `Display.h`

The driver talks to a HD44780-class controller through a PCF8574 expander.
Every member function of `class Display` is embedded as a function on an explicit
state `St`: the two data members of the object, the number of bus transmissions
performed so far, and the chronological list of observable events (bytes handed
to `HAL_I2C_Master_Transmit` and durations handed to `HAL_Delay`).

The bus is a parameter `hal : Nat → Bool`: `hal k` tells whether the `k`-th
transmission (counted from the start of the driver's life) returned `HAL_OK`.

`uint8_t` values are natural numbers; every narrowing conversion of the C++ code
is written `u8`, that is, reduction modulo `256`.
-/

namespace LCD2004

/-! ## Constants of `Display.cpp` -/

def LCD_CLEARDISPLAY : Nat := 0x01
def LCD_DISPLAYCONTROL : Nat := 0x08
def LCD_RETURNHOME : Nat := 0x02
def LCD_SETDDRAMADDR : Nat := 0x80
def LCD_DISPLAYON : Nat := 0x04
def LCD_DISPLAYOFF : Nat := 0x00
def LCD_BACKLIGHT : Nat := 0x08
def LCD_ROW0 : Nat := 0x80
def LCD_ROW1 : Nat := 0xC0
def LCD_ROW2 : Nat := 0x94
def LCD_ROW3 : Nat := 0xD4
def LCD_ENABLE_BIT : Nat := 0x04
def LCD_CMD : Nat := 0
def LCD_CHR : Nat := 1

/-! ## `enum LINE` of `Display.h`; a `LINE` argument is its integer value -/

def LINE1 : Int := 0
def LINE2 : Int := 1
def LINE3 : Int := 2
def LINE4 : Int := 3

/-! ## State -/

/-- Conversion of an integer expression to `uint8_t`. -/
def u8 (n : Nat) : Nat := n % 256

/-- Observable actions of the driver on its two external collaborators. -/
inductive Event where
  | write (b : Nat)
  | delay (ms : Nat)
  deriving DecidableEq

/-- Data members of `class Display` (the bus handle `m_hi2c` is the parameter `hal`). -/
structure Display where
  m_backLight : Nat
  m_init : Bool
  deriving DecidableEq

/-- The object together with its environment.  `errors` is a ghost log: the
messages with which `Display::Error` was entered, in order. -/
structure St where
  dev : Display
  count : Nat
  trace : List Event
  errors : List (List Nat)
  deriving DecidableEq

/-- The delay primitive `HAL_Delay(ms)`. -/
def HAL_Delay (ms : Nat) (s : St) : St :=
  { s with trace := s.trace ++ [Event.delay ms] }

/-- The library function `strlen`: number of characters before the first NUL (the end of the list
stands for the terminator of a text without an embedded NUL). -/
def strlen : List Nat → Nat
  | [] => 0
  | c :: cs => if c = 0 then 0 else strlen cs + 1

/-! ## Member functions -/

/-- Member `Display::i2c_write`: one transmission; true when the status is `HAL_OK`. -/
def Display.i2c_write (hal : Nat → Bool) (b : Nat) (s : St) : Bool × St :=
  (hal s.count, { s with count := s.count + 1, trace := s.trace ++ [Event.write b] })

/-- Member `Display::send_nibble`. -/
def Display.send_nibble (hal : Nat → Bool) (val : Nat) (s : St) : Bool × St :=
  let r1 := Display.i2c_write hal val s
  let r2 := Display.i2c_write hal (u8 (val ||| LCD_ENABLE_BIT)) r1.2
  let s3 := HAL_Delay 1 r2.2
  let r3 := Display.i2c_write hal val s3
  (r1.1 && r2.1 && r3.1, r3.2)

/-- Member `Display::lcd_send_byte`. -/
def Display.lcd_send_byte (hal : Nat → Bool) (val mode : Nat) (s : St) : Bool × St :=
  let buf := u8 ((mode ||| (val &&& 0xF0)) ||| s.dev.m_backLight)
  let r1 := Display.send_nibble hal buf s
  let buf2 := u8 ((mode ||| ((val <<< 4) &&& 0xF0)) ||| r1.2.dev.m_backLight)
  let r2 := Display.send_nibble hal buf2 r1.2
  let s3 := HAL_Delay 1 r2.2
  (r1.1 && r2.1, s3)

/-- Shorthand `lcd_send_cmd(cmd)` for `lcd_send_byte(cmd, LCD_CMD)`. -/
def Display.lcd_send_cmd (hal : Nat → Bool) (cmd : Nat) (s : St) : Bool × St :=
  Display.lcd_send_byte hal cmd LCD_CMD s

/-- Shorthand `lcd_send_char(chr)` for `lcd_send_byte(chr, LCD_CHR)`. -/
def Display.lcd_send_char (hal : Nat → Bool) (chr : Nat) (s : St) : Bool × St :=
  Display.lcd_send_byte hal chr LCD_CHR s

/-- Shorthand `lcd_on()`. -/
def Display.lcd_on (hal : Nat → Bool) (s : St) : Bool × St :=
  Display.lcd_send_cmd hal (LCD_DISPLAYCONTROL ||| LCD_DISPLAYON) s

/-- Shorthand `lcd_clear()`: a `do ... while (0)` statement, it yields no value. -/
def Display.lcd_clear (hal : Nat → Bool) (s : St) : St :=
  let r1 := Display.lcd_send_cmd hal LCD_CLEARDISPLAY s
  let r2 := Display.lcd_send_cmd hal LCD_RETURNHOME r1.2
  r2.2

/-- Member `Display::lcd_init`. -/
def Display.lcd_init (hal : Nat → Bool) (s : St) : St :=
  let r1 := Display.lcd_send_cmd hal 0x03 s
  let r2 := Display.lcd_send_cmd hal 0x03 r1.2
  let r3 := Display.lcd_send_cmd hal 0x03 r2.2
  let r4 := Display.lcd_send_cmd hal 0x02 r3.2
  let r5 := Display.lcd_on hal r4.2
  let s6 := Display.lcd_clear hal r5.2
  { s6 with dev := { s6.dev with m_init := r1.1 && r2.1 && r3.1 && r4.1 && r5.1 } }

/-- The loop of `Display::Send`, entered with index `i` and flag `ok`. -/
def Display.Send_loop (hal : Nat → Bool) (pData : List Nat) (i : Nat) (ok : Bool) (s : St) :
    Bool × St :=
  if h : i < strlen pData then
    let r := Display.lcd_send_char hal (u8 (pData.getD i 0)) s
    Display.Send_loop hal pData (i + 1) (if !r.1 then false else ok) r.2
  else
    (ok, s)
termination_by strlen pData - i
decreasing_by omega

/-- Member `Display::Send`. -/
def Display.Send (hal : Nat → Bool) (pData : List Nat) (s : St) : Bool × St :=
  Display.Send_loop hal pData 0 true s

/-- Member `Display::Clear`. -/
def Display.Clear (hal : Nat → Bool) (s : St) : St :=
  let r1 := Display.lcd_send_cmd hal LCD_CLEARDISPLAY s
  let s2 := HAL_Delay 1 r1.2
  let r3 := Display.lcd_send_cmd hal LCD_RETURNHOME s2
  HAL_Delay 1 r3.2

/-- Characters of a string literal. -/
def chars (t : String) : List Nat := t.toList.map Char.toNat

/-- The conversion `%d` of `sprintf`. -/
def fmt_d (y : Int) : List Nat :=
  match y with
  | Int.ofNat n => (Nat.toDigits 10 n).map Char.toNat
  | Int.negSucc n => 45 :: (Nat.toDigits 10 (n + 1)).map Char.toNat

/-- Content of `buf` after `sprintf(buf,"Illegal choice %d in Move",y)`. -/
def sprintf_Illegal (y : Int) : List Nat :=
  chars "Illegal choice " ++ fmt_d y ++ chars " in Move"

mutual

/-- Member `Display::Move`; the `default` label is the last `else`, and the
statement after the `switch` runs on every path. -/
def Display.Move (hal : Nat → Bool) (x : Int) (y : Int) (s : St) : St :=
  let pos_addr := (x % 256).toNat
  let r : Nat × St :=
    if y = LINE1 then (u8 (pos_addr + LCD_ROW0), s)
    else if y = LINE2 then (u8 (pos_addr + LCD_ROW1), s)
    else if y = LINE3 then (u8 (pos_addr + LCD_ROW2), s)
    else if y = LINE4 then (u8 (pos_addr + LCD_ROW3), s)
    else (pos_addr, Display.Error hal (sprintf_Illegal y) s)
  (Display.lcd_send_cmd hal r.1 r.2).2
termination_by (if y = LINE1 ∨ y = LINE2 ∨ y = LINE3 ∨ y = LINE4 then 0 else 2)
decreasing_by simp [*]

/-- Member `Display::Error`. -/
def Display.Error (hal : Nat → Bool) (msg : List Nat) (s : St) : St :=
  let s0 := { s with errors := s.errors ++ [msg] }
  let s1 := Display.Move hal 0 LINE4 s0
  (Display.Send hal msg s1).2
termination_by 1
decreasing_by simp

end

/-- State once the member initialisers `m_backLight(LCD_BACKLIGHT)`, `m_init(false)` of
the constructor have run, before its body: nothing has been transmitted yet. -/
def fresh : St :=
  { dev := { m_backLight := LCD_BACKLIGHT, m_init := false },
    count := 0, trace := [], errors := [] }

/-- Constructor `Display::Display`: the members are initialised, then `lcd_init` runs. -/
def Display.Display (hal : Nat → Bool) : St :=
  Display.lcd_init hal fresh

/-- Member `Display::InitOK`. -/
def Display.InitOK (s : St) : Bool := s.dev.m_init

/-! ## Reachable states -/

/-- States of a driver instance: the state left by the constructor, closed under the
four public operations (all of them over the same bus `hal`). -/
inductive Reachable (hal : Nat → Bool) : St → Prop where
  | ctor : Reachable hal (Display.Display hal)
  | send (pData : List Nat) (s : St) : Reachable hal s → Reachable hal (Display.Send hal pData s).2
  | move (x y : Int) (s : St) : Reachable hal s → Reachable hal (Display.Move hal x y s)
  | clear (s : St) : Reachable hal s → Reachable hal (Display.Clear hal s)
  | error (msg : List Nat) (s : St) : Reachable hal s → Reachable hal (Display.Error hal msg s)

/-! ## Vocabulary of the specification -/

/-- Bytes handed to the bus, in order. -/
def writes : List Event → List Nat
  | [] => []
  | Event.write b :: t => b :: writes t
  | Event.delay _ :: t => writes t

/-- Durations handed to the delay primitive, in order. -/
def delays : List Event → List Nat
  | [] => []
  | Event.write _ :: t => delays t
  | Event.delay ms :: t => ms :: delays t

/-- All of the `n` transmissions numbered `start`, `start + 1`, ... succeeded. -/
def success (hal : Nat → Bool) (start n : Nat) : Bool :=
  (List.range n).all (fun k => hal (start + k))

/-- Nibble handshake of the specification (4.2) on a packed byte: enable low,
enable high, delay, enable low. -/
def nibbleEvents (val : Nat) : List Event :=
  [Event.write val, Event.write (val ||| 0x04), Event.delay 1, Event.write val]

/-- Byte send of the specification (4.1): handshake on
`mode | (value & 0xF0) | backlight`, handshake on
`mode | ((value << 4) & 0xF0) | backlight`, then the 1 ms wait. -/
def byteEvents (backlight val mode : Nat) : List Event :=
  nibbleEvents ((mode ||| (val &&& 0xF0)) ||| backlight)
    ++ nibbleEvents ((mode ||| ((val <<< 4) &&& 0xF0)) ||| backlight)
    ++ [Event.delay 1]

/-- Events of the commands `cmds` sent one after the other. -/
def cmdsEvents (backlight : Nat) : List Nat → List Event
  | [] => []
  | c :: cs => byteEvents backlight c LCD_CMD ++ cmdsEvents backlight cs

/-- Events of the characters `cs` sent one after the other. -/
def textEvents (backlight : Nat) : List Nat → List Event
  | [] => []
  | c :: cs => byteEvents backlight (u8 c) LCD_CHR ++ textEvents backlight cs

/-- The characters of a text: those before the first NUL. -/
def cstr (pData : List Nat) : List Nat := pData.take (strlen pData)

/-- Base address of a row in display-data RAM (data model of the specification). -/
def rowBase (y : Int) : Nat :=
  if y = LINE1 then 0x00 else if y = LINE2 then 0x40 else if y = LINE3 then 0x14 else 0x54

/-- The line value is one of the four enumerators. -/
def validLine (y : Int) : Prop := y = LINE1 ∨ y = LINE2 ∨ y = LINE3 ∨ y = LINE4

instance (y : Int) : Decidable (validLine y) := by unfold validLine; infer_instance

/-- Runs `lcd_send_byte(c, LCD_CMD)` for each `c` of `cmds`, in order, and collects the results. -/
def sendCmds (hal : Nat → Bool) : List Nat → St → List Bool × St
  | [], s => ([], s)
  | c :: cs, s =>
    let r := Display.lcd_send_byte hal c LCD_CMD s
    let rs := sendCmds hal cs r.2
    (r.1 :: rs.1, rs.2)

/-- A bus on which every transmission succeeds. -/
def busOk : Nat → Bool := fun _ => true

/-- A bus on which exactly the transmission number `n` fails. -/
def busFailAt (n : Nat) : Nat → Bool := fun k => !(k == n)

/-- Events of `send_nibble(val)` as the code issues them. -/
def rawNibble (val : Nat) : List Event :=
  [Event.write val, Event.write (u8 (val ||| LCD_ENABLE_BIT)), Event.delay 1, Event.write val]

/-- Events of `lcd_send_byte(val, mode)` as the code issues them. -/
def rawByte (backlight val mode : Nat) : List Event :=
  rawNibble (u8 ((mode ||| (val &&& 0xF0)) ||| backlight))
    ++ rawNibble (u8 ((mode ||| ((val <<< 4) &&& 0xF0)) ||| backlight))
    ++ [Event.delay 1]

/-- Events of the loop of `Send` over the characters `cs`, as the code issues them. -/
def rawText (backlight : Nat) : List Nat → List Event
  | [] => []
  | c :: cs => rawByte backlight (u8 c) LCD_CHR ++ rawText backlight cs

/-- The constant added to `pos_addr` by the `case` of a valid line. -/
def rowConst (y : Int) : Nat :=
  if y = LINE1 then LCD_ROW0 else if y = LINE2 then LCD_ROW1
  else if y = LINE3 then LCD_ROW2 else LCD_ROW3

/-- The seven commands of the initialisation sequence of the specification (4.3):
`0x03` three times, `0x02`, display-on, clear-display, return-home. -/
def initCmds : List Nat := [0x03, 0x03, 0x03, 0x02, 0x0C, 0x01, 0x02]

/-- Events of `Clear()` in the specification (4.7): clear-display, settle delay,
return-home, settle delay. -/
def clearEvents : List Event :=
  byteEvents 0x08 0x01 LCD_CMD ++ [Event.delay 1] ++ byteEvents 0x08 0x02 LCD_CMD
    ++ [Event.delay 1]

/-- Events of commands sent one after the other, as the code issues them. -/
def rawCmds (backlight : Nat) : List Nat → List Event
  | [] => []
  | c :: cs => rawByte backlight c LCD_CMD ++ rawCmds backlight cs

/-- A call of one of the four public operations, with its arguments. -/
inductive Op where
  | send (pData : List Nat)
  | move (x y : Int)
  | clear
  | error (msg : List Nat)

/-- Effect of one public call on the state. -/
def step (hal : Nat → Bool) (s : St) : Op → St
  | Op.send pData => (Display.Send hal pData s).2
  | Op.move x y => Display.Move hal x y s
  | Op.clear => Display.Clear hal s
  | Op.error msg => Display.Error hal msg s

/-- Life of a driver instance: construction, then the calls `ops` in order. -/
def run (hal : Nat → Bool) (ops : List Op) : St :=
  ops.foldl (step hal) (Display.Display hal)

/-- What a public operation hands to the protocol encoder: a logical byte with its
mode (one `lcd_send_byte`), or a settle delay of its own. -/
inductive Item where
  | byte (val mode : Nat)
  | pause (ms : Nat)

/-- Events of a sequence of items, with the backlight bit `0x08`. -/
def itemsEvents : List Item → List Event
  | [] => []
  | Item.byte v m :: t => byteEvents 0x08 v m ++ itemsEvents t
  | Item.pause ms :: t => Event.delay ms :: itemsEvents t

/-- The characters `cs` as items of mode Character. -/
def textItems : List Nat → List Item
  | [] => []
  | c :: cs => Item.byte (u8 c) LCD_CHR :: textItems cs

/-- Items of one public call, read off the bodies of `Send`, `Move`, `Clear`, `Error`. -/
def opItems : Op → List Item
  | Op.send pData => textItems (cstr pData)
  | Op.move x y =>
    if validLine y then [Item.byte (u8 ((x % 256).toNat + rowConst y)) LCD_CMD]
    else Item.byte 0xD4 LCD_CMD :: textItems (cstr (sprintf_Illegal y))
           ++ [Item.byte (x % 256).toNat LCD_CMD]
  | Op.clear =>
    [Item.byte 0x01 LCD_CMD, Item.pause 1, Item.byte 0x02 LCD_CMD, Item.pause 1]
  | Op.error msg => Item.byte 0xD4 LCD_CMD :: textItems (cstr msg)

/-- Items of a sequence of public calls. -/
def progItems : List Op → List Item
  | [] => []
  | o :: os => opItems o ++ progItems os

/-- Items of the constructor: the seven commands of the initialisation. -/
def ctorItems : List Item :=
  [Item.byte 0x03 LCD_CMD, Item.byte 0x03 LCD_CMD, Item.byte 0x03 LCD_CMD,
   Item.byte 0x02 LCD_CMD, Item.byte 0x0C LCD_CMD, Item.byte 0x01 LCD_CMD,
   Item.byte 0x02 LCD_CMD]

/-- Pin mapping of the expander for a written byte `b` that belongs to the logical
byte `v` sent in mode `m`: bit 1 (read/write) is 0, bit 3 (backlight) is 1, bit 0 is the
mode, bits 4-7 are the high or the low nibble of `v`. -/
def pinOk (v m b : Nat) : Prop :=
  b &&& 0x02 = 0 ∧ b &&& 0x08 = 0x08 ∧ b &&& 0x01 = m
    ∧ (b >>> 4 = v >>> 4 ∨ b >>> 4 = v &&& 0x0F)

instance (v m b : Nat) : Decidable (pinOk v m b) := by unfold pinOk; infer_instance

/-- The address of the specification (4.4), `column + rowBase(line)`, as a byte. -/
def address (x y : Int) : Nat := ((x + (rowBase y : Int)) % 256).toNat

/-! ## Arithmetic of packed bytes -/

theorem u8_of_lt {n : Nat} (h : n < 256) : u8 n = n := Nat.mod_eq_of_lt h

theorem u8_lt (n : Nat) : u8 n < 256 := Nat.mod_lt _ (by decide)

theorem packed_lt {a b c : Nat} (ha : a < 256) (hc : c < 256) :
    (a ||| (b &&& 0xF0)) ||| c < 256 := by
  have hb : b &&& 0xF0 < 256 := lt_of_le_of_lt Nat.and_le_right (by decide)
  exact Nat.or_lt_two_pow (n := 8) (Nat.or_lt_two_pow (n := 8) ha hb) hc

theorem enable_lt {a : Nat} (ha : a < 256) : a ||| LCD_ENABLE_BIT < 256 :=
  Nat.or_lt_two_pow (n := 8) ha (by decide)

/-! ## What each member function does to the state -/

theorem success_iff (hal : Nat → Bool) (a n : Nat) :
    success hal a n = true ↔ ∀ k, k < n → hal (a + k) = true := by
  simp [success, List.all_eq_true]

theorem success_zero (hal : Nat → Bool) (a : Nat) : success hal a 0 = true := by
  simp [success]

theorem success_add (hal : Nat → Bool) (a m n : Nat) :
    success hal a (m + n) = (success hal a m && success hal (a + m) n) := by
  rw [Bool.eq_iff_iff]
  simp only [Bool.and_eq_true, success_iff]
  constructor
  · intro h
    refine ⟨fun k hk => h k (by omega), fun k hk => ?_⟩
    have := h (m + k) (by omega)
    rwa [Nat.add_assoc]
  · rintro ⟨h1, h2⟩ k hk
    by_cases hkm : k < m
    · exact h1 k hkm
    · have := h2 (k - m) (by omega)
      have e : a + m + (k - m) = a + k := by omega
      rwa [e] at this

theorem success_three (hal : Nat → Bool) (a : Nat) :
    success hal a 3 = (hal a && hal (a + 1) && hal (a + 2)) := by
  simp [success, List.range_succ, Bool.and_assoc]

theorem rawNibble_eq {val : Nat} (h : val < 256) : rawNibble val = nibbleEvents val := by
  have e := u8_of_lt (enable_lt h)
  simp only [LCD_ENABLE_BIT] at e
  simp [rawNibble, nibbleEvents, e, LCD_ENABLE_BIT]

theorem rawByte_eq {backlight val mode : Nat} (hm : mode < 256) (hb : backlight < 256) :
    rawByte backlight val mode = byteEvents backlight val mode := by
  unfold rawByte byteEvents
  rw [u8_of_lt (packed_lt hm hb), u8_of_lt (packed_lt hm hb),
    rawNibble_eq (packed_lt hm hb), rawNibble_eq (packed_lt hm hb)]

theorem send_nibble_eq (hal : Nat → Bool) (val : Nat) (s : St) :
    Display.send_nibble hal val s =
      (success hal s.count 3,
        { s with count := s.count + 3, trace := s.trace ++ rawNibble val }) := by
  simp [Display.send_nibble, Display.i2c_write, HAL_Delay, rawNibble, success_three]

theorem lcd_send_byte_eq (hal : Nat → Bool) (val mode : Nat) (s : St) :
    Display.lcd_send_byte hal val mode s =
      (success hal s.count 6,
        { s with count := s.count + 6,
                 trace := s.trace ++ rawByte s.dev.m_backLight val mode }) := by
  have h6 : success hal s.count 6 = (success hal s.count 3 && success hal (s.count + 3) 3) :=
    success_add hal s.count 3 3
  simp [Display.lcd_send_byte, send_nibble_eq, HAL_Delay, rawByte, h6]

theorem rawText_eq {backlight : Nat} (hb : backlight < 256) (cs : List Nat) :
    rawText backlight cs = textEvents backlight cs := by
  induction cs with
  | nil => rfl
  | cons c cs ih =>
    simp only [rawText, textEvents, ih]
    rw [rawByte_eq (by decide) hb]

theorem strlen_le (p : List Nat) : strlen p ≤ p.length := by
  induction p with
  | nil => simp [strlen]
  | cons c cs ih =>
    simp only [strlen, List.length_cons]
    split <;> omega

theorem cstr_length (p : List Nat) : (cstr p).length = strlen p := by
  simp [cstr, List.length_take, strlen_le p]

theorem cstr_drop (p : List Nat) (i : Nat) (h : i < strlen p) :
    (cstr p).drop i = p.getD i 0 :: (cstr p).drop (i + 1) := by
  have hl : i < (cstr p).length := by rw [cstr_length]; exact h
  have hp : i < p.length := lt_of_lt_of_le h (strlen_le p)
  rw [List.drop_eq_getElem_cons hl]
  congr 1
  simp [cstr, List.getElem_take, List.getD_eq_getElem?_getD, List.getElem?_eq_getElem hp]

theorem Send_loop_eq (hal : Nat → Bool) (p : List Nat) :
    ∀ (k i : Nat) (ok : Bool) (s : St), strlen p - i = k →
      Display.Send_loop hal p i ok s =
        (ok && success hal s.count (6 * k),
          { s with count := s.count + 6 * k,
                   trace := s.trace ++ rawText s.dev.m_backLight ((cstr p).drop i) }) := by
  intro k
  induction k with
  | zero =>
    intro i ok s h
    have hi : ¬ i < strlen p := by omega
    have hd : (cstr p).drop i = [] := by
      apply List.drop_eq_nil_of_le
      rw [cstr_length]; omega
    rw [Display.Send_loop]
    simp [hi, hd, rawText, success_zero]
  | succ k ih =>
    intro i ok s h
    have hi : i < strlen p := by omega
    rw [Display.Send_loop]
    simp only [hi, dite_true, Display.lcd_send_char, lcd_send_byte_eq]
    rw [ih (i + 1) _ _ (by omega), cstr_drop p i hi]
    have e : 6 * (k + 1) = 6 + 6 * k := by omega
    rw [e, success_add]
    refine Prod.ext ?_ ?_
    · cases success hal s.count 6 <;> cases ok <;> simp
    · simp [rawText, Nat.add_assoc]

theorem Send_eq (hal : Nat → Bool) (p : List Nat) (s : St) :
    Display.Send hal p s =
      (success hal s.count (6 * strlen p),
        { s with count := s.count + 6 * strlen p,
                 trace := s.trace ++ rawText s.dev.m_backLight (cstr p) }) := by
  unfold Display.Send
  rw [Send_loop_eq hal p (strlen p) 0 true s (by omega)]
  simp

theorem lcd_send_cmd_eq (hal : Nat → Bool) (cmd : Nat) (s : St) :
    Display.lcd_send_cmd hal cmd s =
      (success hal s.count 6,
        { s with count := s.count + 6,
                 trace := s.trace ++ rawByte s.dev.m_backLight cmd LCD_CMD }) := by
  simp [Display.lcd_send_cmd, lcd_send_byte_eq]

theorem Move_valid_eq (hal : Nat → Bool) (x y : Int) (s : St) (hy : validLine y) :
    Display.Move hal x y s =
      { s with count := s.count + 6,
               trace := s.trace ++
                 rawByte s.dev.m_backLight (u8 ((x % 256).toNat + rowConst y)) LCD_CMD } := by
  rw [Display.Move]
  rcases hy with h | h | h | h <;>
    simp [h, lcd_send_cmd_eq, rowConst, LINE1, LINE2, LINE3, LINE4]

theorem Move_invalid_eq (hal : Nat → Bool) (x y : Int) (s : St) (hy : ¬ validLine y) :
    Display.Move hal x y s =
      (Display.lcd_send_cmd hal (x % 256).toNat
        (Display.Error hal (sprintf_Illegal y) s)).2 := by
  rw [Display.Move]
  simp only [validLine, not_or] at hy
  simp [hy.1, hy.2.1, hy.2.2.1, hy.2.2.2]

theorem Error_eq (hal : Nat → Bool) (msg : List Nat) (s : St) :
    Display.Error hal msg s =
      { s with errors := s.errors ++ [msg],
               count := s.count + 6 + 6 * strlen msg,
               trace := s.trace ++ rawByte s.dev.m_backLight 0xD4 LCD_CMD
                          ++ rawText s.dev.m_backLight (cstr msg) } := by
  rw [Display.Error]
  have hv : validLine LINE4 := by decide
  simp only [Move_valid_eq hal 0 LINE4 _ hv, Send_eq]
  simp [rowConst, LINE1, LINE2, LINE3, LINE4, LCD_ROW3, u8]

theorem Clear_eq (hal : Nat → Bool) (s : St) :
    Display.Clear hal s =
      { s with count := s.count + 12,
               trace := s.trace ++ rawByte s.dev.m_backLight LCD_CLEARDISPLAY LCD_CMD
                          ++ [Event.delay 1]
                          ++ rawByte s.dev.m_backLight LCD_RETURNHOME LCD_CMD
                          ++ [Event.delay 1] } := by
  simp [Display.Clear, lcd_send_cmd_eq, HAL_Delay, Nat.add_assoc]

theorem lcd_init_eq (hal : Nat → Bool) (s : St) :
    Display.lcd_init hal s =
      { s with dev := { s.dev with m_init := success hal s.count 30 },
               count := s.count + 42,
               trace := s.trace ++ rawByte s.dev.m_backLight 0x03 LCD_CMD
                          ++ rawByte s.dev.m_backLight 0x03 LCD_CMD
                          ++ rawByte s.dev.m_backLight 0x03 LCD_CMD
                          ++ rawByte s.dev.m_backLight 0x02 LCD_CMD
                          ++ rawByte s.dev.m_backLight 0x0C LCD_CMD
                          ++ rawByte s.dev.m_backLight 0x01 LCD_CMD
                          ++ rawByte s.dev.m_backLight 0x02 LCD_CMD } := by
  have h30 : success hal s.count 30 =
      (success hal s.count 6 && success hal (s.count + 6) 6 && success hal (s.count + 12) 6
        && success hal (s.count + 18) 6 && success hal (s.count + 24) 6) := by
    have e : (30 : Nat) = 6 + (6 + (6 + (6 + 6))) := by norm_num
    rw [e, success_add, success_add, success_add, success_add]
    simp [Nat.add_assoc, Bool.and_assoc]
  simp [Display.lcd_init, Display.lcd_on, Display.lcd_clear, lcd_send_cmd_eq, h30,
    Nat.add_assoc, LCD_DISPLAYCONTROL, LCD_DISPLAYON, LCD_CLEARDISPLAY, LCD_RETURNHOME]

theorem writes_append (a b : List Event) : writes (a ++ b) = writes a ++ writes b := by
  induction a with
  | nil => rfl
  | cons e t ih => cases e <;> simp [writes, ih]

theorem writes_nibbleEvents (val : Nat) : writes (nibbleEvents val) = [val, val ||| 0x04, val] := by
  simp [nibbleEvents, writes]

theorem writes_byteEvents_length (b v m : Nat) : (writes (byteEvents b v m)).length = 6 := by
  simp [byteEvents, writes_append, writes_nibbleEvents, writes]

set_option maxRecDepth 20000 in
theorem enable_only : ∀ val, val < 256 → val &&& 0x04 = 0 → (val ||| 0x04) ^^^ val = 0x04 := by
  decide

theorem rawCmds_eq {backlight : Nat} (hb : backlight < 256) (cs : List Nat) :
    rawCmds backlight cs = cmdsEvents backlight cs := by
  induction cs with
  | nil => rfl
  | cons c cs ih =>
    simp only [rawCmds, cmdsEvents, ih]
    rw [rawByte_eq (by decide) hb]

theorem sendCmds_state (hal : Nat → Bool) :
    ∀ (cs : List Nat) (s : St),
      (sendCmds hal cs s).2 =
        { s with count := s.count + 6 * cs.length,
                 trace := s.trace ++ rawCmds s.dev.m_backLight cs } := by
  intro cs
  induction cs with
  | nil => intro s; simp [sendCmds, rawCmds]
  | cons c cs ih =>
    intro s
    simp only [sendCmds, ih, lcd_send_byte_eq, rawCmds, List.length_cons]
    have e : s.count + 6 + 6 * cs.length = s.count + 6 * (cs.length + 1) := by omega
    simp [e]

theorem sendCmds_all (hal : Nat → Bool) :
    ∀ (cs : List Nat) (s : St),
      (sendCmds hal cs s).1.all id = success hal s.count (6 * cs.length) := by
  intro cs
  induction cs with
  | nil => intro s; simp [sendCmds, success_zero]
  | cons c cs ih =>
    intro s
    have e : 6 * (cs.length + 1) = 6 + 6 * cs.length := by omega
    simp only [sendCmds, List.all_cons, id, ih, lcd_send_byte_eq, List.length_cons, e,
      success_add]

theorem writes_cmdsEvents_length (b : Nat) (cs : List Nat) :
    (writes (cmdsEvents b cs)).length = 6 * cs.length := by
  induction cs with
  | nil => rfl
  | cons c cs ih =>
    simp only [cmdsEvents, writes_append, List.length_append, writes_byteEvents_length, ih,
      List.length_cons]
    omega

theorem ctor_eq (hal : Nat → Bool) :
    Display.Display hal =
      { dev := { m_backLight := 0x08, m_init := success hal 0 30 },
        count := 42, trace := cmdsEvents 0x08 initCmds, errors := [] } := by
  have hb256 : (0x08 : Nat) < 256 := by decide
  simp only [Display.Display, fresh, lcd_init_eq, LCD_BACKLIGHT, rawByte_eq (by decide : LCD_CMD < 256) hb256]
  simp [cmdsEvents, initCmds]

theorem Send_dev (hal : Nat → Bool) (p : List Nat) (s : St) :
    (Display.Send hal p s).2.dev = s.dev := by
  rw [Send_eq]

theorem Clear_dev (hal : Nat → Bool) (s : St) : (Display.Clear hal s).dev = s.dev := by
  rw [Clear_eq]

theorem Error_dev (hal : Nat → Bool) (msg : List Nat) (s : St) :
    (Display.Error hal msg s).dev = s.dev := by
  rw [Error_eq]

theorem Move_dev (hal : Nat → Bool) (x y : Int) (s : St) :
    (Display.Move hal x y s).dev = s.dev := by
  by_cases hy : validLine y
  · rw [Move_valid_eq hal x y s hy]
  · rw [Move_invalid_eq hal x y s hy, lcd_send_cmd_eq]
    exact Error_dev hal _ s

theorem Reachable_dev (hal : Nat → Bool) (s : St) (hr : Reachable hal s) :
    s.dev = (Display.Display hal).dev := by
  induction hr with
  | ctor => rfl
  | send p s _ ih => rw [Send_dev, ih]
  | move x y s _ ih => rw [Move_dev, ih]
  | clear s _ ih => rw [Clear_dev, ih]
  | error msg s _ ih => rw [Error_dev, ih]

theorem Reachable_backlight (hal : Nat → Bool) (s : St) (hr : Reachable hal s) :
    s.dev.m_backLight = 0x08 := by
  rw [Reachable_dev hal s hr, ctor_eq]

theorem move_addr (x : Int) (y : Int) (hy : validLine y) (h0 : 0 ≤ x) (h19 : x ≤ 19) :
    u8 ((x % 256).toNat + rowConst y) = LCD_SETDDRAMADDR ||| (x.toNat + rowBase y) := by
  lift x to ℕ using h0
  have hx : x ≤ 19 := by exact_mod_cast h19
  rcases hy with h | h | h | h <;> subst h <;> interval_cases x <;> decide

/-! ## Traces of whole runs -/

theorem itemsEvents_append (a b : List Item) :
    itemsEvents (a ++ b) = itemsEvents a ++ itemsEvents b := by
  induction a with
  | nil => rfl
  | cons i t ih => cases i <;> simp [itemsEvents, ih]

theorem itemsEvents_textItems (cs : List Nat) :
    itemsEvents (textItems cs) = textEvents 0x08 cs := by
  induction cs with
  | nil => rfl
  | cons c cs ih => simp [textItems, itemsEvents, textEvents, ih]

theorem itemsEvents_invalid (cs : List Nat) (v : Nat) :
    itemsEvents (Item.byte 0xD4 LCD_CMD :: textItems cs ++ [Item.byte v LCD_CMD]) =
      byteEvents 0x08 0xD4 LCD_CMD ++ (textEvents 0x08 cs ++ byteEvents 0x08 v LCD_CMD) := by
  rw [List.cons_append, itemsEvents, itemsEvents_append, itemsEvents_textItems]
  simp [itemsEvents]

theorem step_reachable (hal : Nat → Bool) (s : St) (o : Op) (hr : Reachable hal s) :
    Reachable hal (step hal s o) := by
  cases o with
  | send p => exact Reachable.send p s hr
  | move x y => exact Reachable.move x y s hr
  | clear => exact Reachable.clear s hr
  | error msg => exact Reachable.error msg s hr

theorem step_trace (hal : Nat → Bool) (s : St) (o : Op) (hb : s.dev.m_backLight = 0x08) :
    (step hal s o).trace = s.trace ++ itemsEvents (opItems o) := by
  have hb256 : (0x08 : Nat) < 256 := by decide
  have hc : LCD_CMD < 256 := by decide
  cases o with
  | send p =>
    simp only [step, opItems, Send_eq, hb, rawText_eq hb256, itemsEvents_textItems]
  | move x y =>
    by_cases hy : validLine y
    · simp only [step, opItems, hy, if_true, Move_valid_eq hal x y s hy, hb,
        rawByte_eq hc hb256, itemsEvents, List.append_nil]
    · simp only [step, opItems, hy, if_false, Move_invalid_eq hal x y s hy, lcd_send_cmd_eq,
        Error_eq, hb, rawByte_eq hc hb256, rawText_eq hb256, itemsEvents_invalid,
        List.append_assoc]
  | clear =>
    simp only [step, opItems, Clear_eq, hb, LCD_CLEARDISPLAY, LCD_RETURNHOME,
      rawByte_eq hc hb256, itemsEvents, List.append_assoc, List.cons_append, List.nil_append,
      List.append_nil]
  | error msg =>
    simp only [step, opItems, Error_eq, hb, rawByte_eq hc hb256, rawText_eq hb256,
      itemsEvents, itemsEvents_textItems, List.append_assoc]

theorem foldl_trace (hal : Nat → Bool) :
    ∀ (ops : List Op) (s : St), Reachable hal s →
      (ops.foldl (step hal) s).trace = s.trace ++ itemsEvents (progItems ops) := by
  intro ops
  induction ops with
  | nil => intro s _; simp [progItems, itemsEvents]
  | cons o os ih =>
    intro s hr
    rw [List.foldl_cons, ih _ (step_reachable hal s o hr),
      step_trace hal s o (Reachable_backlight hal s hr)]
    simp [progItems, itemsEvents_append]

theorem foldl_reachable (hal : Nat → Bool) :
    ∀ (ops : List Op) (s : St), Reachable hal s → Reachable hal (ops.foldl (step hal) s) := by
  intro ops
  induction ops with
  | nil => intro s hr; exact hr
  | cons o os ih => intro s hr; exact ih _ (step_reachable hal s o hr)

theorem run_reachable (hal : Nat → Bool) (ops : List Op) : Reachable hal (run hal ops) :=
  foldl_reachable hal ops _ Reachable.ctor

theorem run_trace (hal : Nat → Bool) (ops : List Op) :
    (run hal ops).trace = itemsEvents (ctorItems ++ progItems ops) := by
  unfold run
  rw [foldl_trace hal ops _ Reachable.ctor, ctor_eq, itemsEvents_append]
  rfl

theorem move_byte (x y : Int) (hy : validLine y) :
    u8 ((x % 256).toNat + rowConst y) = (address x y + 0x80) % 256 := by
  unfold u8 address
  rcases hy with h | h | h | h <;> subst h <;>
    simp only [rowConst, rowBase, LINE1, LINE2, LINE3, LINE4, LCD_ROW0, LCD_ROW1, LCD_ROW2,
      LCD_ROW3] <;> norm_num <;> omega

theorem address_lt (x y : Int) : address x y < 256 := by
  unfold address
  omega

set_option maxRecDepth 20000 in
theorem flip_bit7 : ∀ a, a < 256 →
    (((a + 0x80) % 256 = 0x80 ||| a ↔ a < 0x80)
      ∧ (((a + 0x80) % 256) &&& 0x80 = 0x80 ↔ a < 0x80)
      ∧ (a + 0x80) % 256 = a ^^^ 0x80) := by
  decide

theorem step_rel (hal1 hal2 : Nat → Bool) (s1 s2 : St) (o : Op)
    (hc : s1.count = s2.count) (he : s1.errors = s2.errors) :
    (step hal1 s1 o).count = (step hal2 s2 o).count
      ∧ (step hal1 s1 o).errors = (step hal2 s2 o).errors := by
  cases o with
  | send p => simp [step, Send_eq, hc, he]
  | move x y =>
    by_cases hy : validLine y
    · simp [step, Move_valid_eq _ x y _ hy, hc, he]
    · simp [step, Move_invalid_eq _ x y _ hy, lcd_send_cmd_eq, Error_eq, hc, he]
  | clear => simp [step, Clear_eq, hc, he]
  | error msg => simp [step, Error_eq, hc, he]

theorem foldl_rel (hal1 hal2 : Nat → Bool) :
    ∀ (ops : List Op) (s1 s2 : St), s1.count = s2.count → s1.errors = s2.errors →
      (ops.foldl (step hal1) s1).count = (ops.foldl (step hal2) s2).count
        ∧ (ops.foldl (step hal1) s1).errors = (ops.foldl (step hal2) s2).errors := by
  intro ops
  induction ops with
  | nil => intro s1 s2 hc he; exact ⟨hc, he⟩
  | cons o os ih =>
    intro s1 s2 hc he
    have h := step_rel hal1 hal2 s1 s2 o hc he
    exact ih _ _ h.1 h.2

theorem mem_textItems (v m : Nat) (cs : List Nat) (h : Item.byte v m ∈ textItems cs) :
    v < 256 ∧ m = LCD_CHR := by
  induction cs with
  | nil => simp [textItems] at h
  | cons c cs ih =>
    simp only [textItems, List.mem_cons, Item.byte.injEq] at h
    rcases h with ⟨hv, hm⟩ | h
    · exact ⟨hv ▸ u8_lt c, hm⟩
    · exact ih h

theorem mem_opItems (v m : Nat) (o : Op) (h : Item.byte v m ∈ opItems o) :
    v < 256 ∧ (m = LCD_CMD ∨ m = LCD_CHR) := by
  cases o with
  | send p =>
    have := mem_textItems v m _ h
    exact ⟨this.1, Or.inr this.2⟩
  | move x y =>
    by_cases hy : validLine y
    · simp only [opItems, hy, if_true, List.mem_singleton, Item.byte.injEq] at h
      exact ⟨h.1 ▸ u8_lt _, Or.inl h.2⟩
    · simp only [opItems, hy, if_false, List.mem_append, List.mem_cons, List.not_mem_nil,
        or_false, Item.byte.injEq] at h
      rcases h with (⟨hv, hm⟩ | h) | ⟨hv, hm⟩
      · exact ⟨hv ▸ (by decide), Or.inl hm⟩
      · have := mem_textItems v m _ h
        exact ⟨this.1, Or.inr this.2⟩
      · refine ⟨?_, Or.inl hm⟩
        rw [hv]
        omega
  | clear =>
    simp only [opItems, List.mem_cons, Item.byte.injEq, List.not_mem_nil, or_false,
      reduceCtorEq, false_or] at h
    rcases h with ⟨hv, hm⟩ | ⟨hv, hm⟩
    · exact ⟨hv ▸ (by decide), Or.inl hm⟩
    · exact ⟨hv ▸ (by decide), Or.inl hm⟩
  | error msg =>
    simp only [opItems, List.mem_cons, Item.byte.injEq] at h
    rcases h with ⟨hv, hm⟩ | h
    · exact ⟨hv ▸ (by decide), Or.inl hm⟩
    · have := mem_textItems v m _ h
      exact ⟨this.1, Or.inr this.2⟩

theorem mem_progItems (v m : Nat) (ops : List Op) (h : Item.byte v m ∈ progItems ops) :
    v < 256 ∧ (m = LCD_CMD ∨ m = LCD_CHR) := by
  induction ops with
  | nil => simp [progItems] at h
  | cons o os ih =>
    simp only [progItems, List.mem_append] at h
    rcases h with h | h
    · exact mem_opItems v m o h
    · exact ih h

theorem mem_ctorItems (v m : Nat) (h : Item.byte v m ∈ ctorItems) :
    v < 256 ∧ (m = LCD_CMD ∨ m = LCD_CHR) := by
  simp only [ctorItems, List.mem_cons, Item.byte.injEq, List.mem_singleton] at h
  rcases h with h | h | h | h | h | h | h | h
  all_goals first
    | exact ⟨h.1 ▸ (by decide), Or.inl h.2⟩
    | cases h

theorem mem_writes_itemsEvents (b : Nat) :
    ∀ l : List Item, b ∈ writes (itemsEvents l) →
      ∃ v m, Item.byte v m ∈ l ∧ b ∈ writes (byteEvents 0x08 v m) := by
  intro l
  induction l with
  | nil => intro h; simp [itemsEvents, writes] at h
  | cons i t ih =>
    intro h
    cases i with
    | byte v m =>
      simp only [itemsEvents, writes_append, List.mem_append] at h
      rcases h with h | h
      · exact ⟨v, m, List.mem_cons_self _ _, h⟩
      · obtain ⟨v', m', hm, hb⟩ := ih h
        exact ⟨v', m', List.mem_cons_of_mem _ hm, hb⟩
    | pause ms =>
      simp only [itemsEvents, writes] at h
      obtain ⟨v', m', hm, hb⟩ := ih h
      exact ⟨v', m', List.mem_cons_of_mem _ hm, hb⟩

set_option maxRecDepth 100000 in
theorem pin_byte : ∀ v, v < 256 → ∀ m, m < 2 →
    ∀ b, b ∈ writes (byteEvents 0x08 v m) → pinOk v m b := by
  decide

set_option maxRecDepth 100000 in
theorem packed_decode : ∀ v, v < 256 → ∀ m, m < 2 →
    ((((m ||| (v &&& 0xF0)) ||| 0x08) &&& 0xF0) ||| (((m ||| ((v <<< 4) &&& 0xF0)) ||| 0x08) >>> 4)
        = v
      ∧ ((m ||| (v &&& 0xF0)) ||| 0x08) &&& 0x01 = m
      ∧ ((m ||| ((v <<< 4) &&& 0xF0)) ||| 0x08) &&& 0x01 = m) := by
  decide

theorem writes_byteEvents (b v m : Nat) :
    writes (byteEvents b v m) =
      [(m ||| (v &&& 0xF0)) ||| b, ((m ||| (v &&& 0xF0)) ||| b) ||| 0x04,
       (m ||| (v &&& 0xF0)) ||| b,
       (m ||| ((v <<< 4) &&& 0xF0)) ||| b, ((m ||| ((v <<< 4) &&& 0xF0)) ||| b) ||| 0x04,
       (m ||| ((v <<< 4) &&& 0xF0)) ||| b] := by
  simp [byteEvents, writes_append, writes_nibbleEvents, writes]

theorem writes_byteEvents_inj {v m v' m' : Nat} (hv : v < 256) (hm : m < 2)
    (hv' : v' < 256) (hm' : m' < 2)
    (h : writes (byteEvents 0x08 v m) = writes (byteEvents 0x08 v' m')) :
    v = v' ∧ m = m' := by
  rw [writes_byteEvents, writes_byteEvents] at h
  simp only [List.cons.injEq] at h
  obtain ⟨ha, _, _, hb, _⟩ := h
  have d := packed_decode v hv m hm
  have d' := packed_decode v' hv' m' hm'
  rw [ha, hb] at d
  exact ⟨d.1.symm.trans d'.1, d.2.1.symm.trans d'.2.1⟩

theorem onscreen_byte (x y : Int) (hy : validLine y) (h0 : 0 ≤ x) (h19 : x ≤ 19) :
    u8 ((x % 256).toNat + rowConst y) = x.toNat + rowConst y := by
  unfold u8
  rcases hy with h | h | h | h <;> subst h <;>
    simp only [rowConst, LINE1, LINE2, LINE3, LINE4, LCD_ROW0, LCD_ROW1, LCD_ROW2,
      LCD_ROW3] <;> norm_num <;> omega

theorem onscreen_inj (c1 c2 l1 l2 : Int) (h1 : 0 ≤ c1) (h1' : c1 ≤ 19) (h2 : 0 ≤ c2)
    (h2' : c2 ≤ 19) (hl1 : validLine l1) (hl2 : validLine l2) :
    (c1.toNat + rowConst l1 = c2.toNat + rowConst l2 → c1 = c2 ∧ l1 = l2)
      ∧ (c1.toNat + rowBase l1 = c2.toNat + rowBase l2 → c1 = c2 ∧ l1 = l2) := by
  rcases hl1 with h | h | h | h <;> rcases hl2 with h' | h' | h' | h' <;> subst h <;> subst h' <;>
    simp only [rowConst, rowBase, LINE1, LINE2, LINE3, LINE4, LCD_ROW0, LCD_ROW1, LCD_ROW2,
      LCD_ROW3] <;> norm_num <;> omega

/-! ## The claims -/

/-- C1: for every byte value `v`, both modes and every bus, `lcd_send_byte(v, m)` on a
driver whose backlight field is `0x08` is exactly two nibble handshakes followed by the
1 ms wait: the first handshake on `m | (v & 0xF0) | 0x08`, the second on
`m | ((v << 4) & 0xF0) | 0x08`, in that order; six bus writes in all. -/
theorem lcd_send_byte_two_handshakes (hal : Nat → Bool) (v m : Nat) (s : St)
    (_hv : v < 256) (hm : m = LCD_CMD ∨ m = LCD_CHR)
    (hb : s.dev.m_backLight = LCD_BACKLIGHT) :
    (Display.lcd_send_byte hal v m s).2 =
        HAL_Delay 1 (Display.send_nibble hal ((m ||| ((v <<< 4) &&& 0xF0)) ||| 0x08)
          (Display.send_nibble hal ((m ||| (v &&& 0xF0)) ||| 0x08) s).2).2
      ∧ (Display.lcd_send_byte hal v m s).2.trace =
          s.trace ++ nibbleEvents ((m ||| (v &&& 0xF0)) ||| 0x08)
            ++ nibbleEvents ((m ||| ((v <<< 4) &&& 0xF0)) ||| 0x08) ++ [Event.delay 1]
      ∧ writes (Display.lcd_send_byte hal v m s).2.trace =
          writes s.trace ++
            [(m ||| (v &&& 0xF0)) ||| 0x08, ((m ||| (v &&& 0xF0)) ||| 0x08) ||| 0x04,
             (m ||| (v &&& 0xF0)) ||| 0x08,
             (m ||| ((v <<< 4) &&& 0xF0)) ||| 0x08,
             ((m ||| ((v <<< 4) &&& 0xF0)) ||| 0x08) ||| 0x04,
             (m ||| ((v <<< 4) &&& 0xF0)) ||| 0x08]
      ∧ (Display.lcd_send_byte hal v m s).2.count = s.count + 6 := by
  have hm256 : m < 256 := by rcases hm with h | h <;> simp [h, LCD_CMD, LCD_CHR]
  have hb256 : (0x08 : Nat) < 256 := by decide
  have h1 := packed_lt (b := v) hm256 hb256
  have h2 := packed_lt (b := v <<< 4) hm256 hb256
  have ht : (Display.lcd_send_byte hal v m s).2.trace =
      s.trace ++ nibbleEvents ((m ||| (v &&& 0xF0)) ||| 0x08)
        ++ nibbleEvents ((m ||| ((v <<< 4) &&& 0xF0)) ||| 0x08) ++ [Event.delay 1] := by
    rw [lcd_send_byte_eq, hb]
    simp only [LCD_BACKLIGHT]
    rw [rawByte_eq hm256 hb256]
    simp [byteEvents]
  refine ⟨?_, ht, ?_, ?_⟩
  · simp only [Display.lcd_send_byte, hb, LCD_BACKLIGHT, send_nibble_eq, u8_of_lt h1,
      u8_of_lt h2]
  · rw [ht]
    simp [writes_append, writes_nibbleEvents, writes]
  · rw [lcd_send_byte_eq]

/-- Instance of C1: the character `A` (0x41) sent to a freshly initialised driver. -/
theorem lcd_send_byte_two_handshakes_witness :
    writes (Display.lcd_send_byte busOk 0x41 LCD_CHR fresh).2.trace =
      [0x49, 0x4D, 0x49, 0x19, 0x1D, 0x19] :=
  (lcd_send_byte_two_handshakes busOk 0x41 LCD_CHR fresh (by decide) (Or.inr rfl) rfl).2.2.1

/-- C2: for every packed byte `val` whose enable bit (0x04) is clear and every bus,
`send_nibble(val)` issues exactly three bus writes, `val`, `val | 0x04`, `val` in this
order (with the 1 ms delay before the last), the three bytes differing only in the enable
bit; it returns true exactly when all three writes succeeded, and the writes issued do
not depend on the outcome of earlier ones. -/
theorem send_nibble_handshake (hal : Nat → Bool) (val : Nat) (s : St)
    (hval : val < 256) (hen : val &&& LCD_ENABLE_BIT = 0) :
    (Display.send_nibble hal val s).2.trace =
        s.trace ++ [Event.write val, Event.write (val ||| 0x04), Event.delay 1, Event.write val]
      ∧ writes (Display.send_nibble hal val s).2.trace =
          writes s.trace ++ [val, val ||| 0x04, val]
      ∧ (Display.send_nibble hal val s).2.count = s.count + 3
      ∧ (val ||| 0x04) ^^^ val = 0x04
      ∧ ((Display.send_nibble hal val s).1 = true ↔
          hal s.count = true ∧ hal (s.count + 1) = true ∧ hal (s.count + 2) = true) := by
  have ht : (Display.send_nibble hal val s).2.trace = s.trace ++ nibbleEvents val := by
    rw [send_nibble_eq, rawNibble_eq hval]
  refine ⟨?_, ?_, ?_, enable_only val hval hen, ?_⟩
  · rw [ht]; rfl
  · rw [ht, writes_append, writes_nibbleEvents]
  · rw [send_nibble_eq]
  · rw [send_nibble_eq, success_three]
    simp [and_assoc]

/-- Instance of C2: the packed byte 0x49 on a bus whose second transmission fails; the
three writes are still issued and the handshake reports failure. -/
theorem send_nibble_handshake_witness :
    writes (Display.send_nibble (busFailAt 1) 0x49 fresh).2.trace = [0x49, 0x4D, 0x49]
      ∧ (Display.send_nibble (busFailAt 1) 0x49 fresh).1 = false :=
  ⟨(send_nibble_handshake (busFailAt 1) 0x49 fresh (by decide) (by decide)).2.1, by decide⟩

/-- C3: for every text and every bus, `Send(text)` on a driver whose backlight field is
`0x08` sends each of the `n = strlen(text)` characters before the first NUL, in order,
with mode Character (`6 * n` bus writes), whatever the outcomes of the writes; it returns
true exactly when every one of these `6 * n` writes succeeded.  A text without
characters causes no event and yields true. -/
theorem Send_best_effort (hal : Nat → Bool) (pData : List Nat) (s : St)
    (hb : s.dev.m_backLight = LCD_BACKLIGHT) :
    (Display.Send hal pData s).2.trace = s.trace ++ textEvents 0x08 (cstr pData)
      ∧ (cstr pData).length = strlen pData
      ∧ (writes (Display.Send hal pData s).2.trace).length =
          (writes s.trace).length + 6 * strlen pData
      ∧ (Display.Send hal pData s).2.count = s.count + 6 * strlen pData
      ∧ ((Display.Send hal pData s).1 = true ↔
          ∀ k, k < 6 * strlen pData → hal (s.count + k) = true)
      ∧ (strlen pData = 0 → Display.Send hal pData s = (true, s)) := by
  have hb256 : (0x08 : Nat) < 256 := by decide
  have ht : (Display.Send hal pData s).2.trace = s.trace ++ textEvents 0x08 (cstr pData) := by
    rw [Send_eq, hb]
    simp only [LCD_BACKLIGHT]
    rw [rawText_eq hb256]
  have hlen : ∀ cs : List Nat, (writes (textEvents 0x08 cs)).length = 6 * cs.length := by
    intro cs
    induction cs with
    | nil => rfl
    | cons c cs ih =>
      simp only [textEvents, writes_append, List.length_append, writes_byteEvents_length, ih,
        List.length_cons]
      omega
  refine ⟨ht, cstr_length pData, ?_, ?_, ?_, ?_⟩
  · rw [ht, writes_append, List.length_append, hlen, cstr_length]
  · rw [Send_eq]
  · rw [Send_eq]
    exact success_iff hal s.count (6 * strlen pData)
  · intro h0
    have hc : cstr pData = [] := by
      apply List.eq_nil_of_length_eq_zero
      rw [cstr_length, h0]
    rw [Send_eq, hc, h0]
    simp [rawText, success_zero]

/-- Instance of C3: the text "Hi" followed by a NUL and a further byte, on a bus whose
first transmission fails: both characters are sent (twelve writes) and the result is
false. -/
theorem Send_best_effort_witness :
    writes (Display.Send (busFailAt 0) [0x48, 0x69, 0, 0x41] fresh).2.trace =
        [0x49, 0x4D, 0x49, 0x89, 0x8D, 0x89, 0x69, 0x6D, 0x69, 0x99, 0x9D, 0x99]
      ∧ (Display.Send (busFailAt 0) [0x48, 0x69, 0, 0x41] fresh).1 = false := by
  have h := Send_best_effort (busFailAt 0) [0x48, 0x69, 0, 0x41] fresh rfl
  refine ⟨?_, ?_⟩
  · rw [h.1]; decide
  · have h5 := h.2.2.2.2.1
    cases hr : (Display.Send (busFailAt 0) [0x48, 0x69, 0, 0x41] fresh).1
    · rfl
    · exact absurd (h5.mp hr 0 (by decide)) (by decide)

/-- C4, as the specification states it, fails: on a bus whose transmission number 30
(the first write of clear-display) is the only one to fail, the sixth step of the
initialisation fails and yet `InitOK()` is true. -/
theorem InitOK_ignores_clear_failure :
    Display.InitOK (Display.Display (busFailAt 30)) = true
      ∧ (sendCmds (busFailAt 30) initCmds fresh).1 = [true, true, true, true, true, false, true]
      ∧ ¬ (Display.InitOK (Display.Display (busFailAt 30)) =
            (sendCmds (busFailAt 30) initCmds fresh).1.all id)
      ∧ ¬ (Display.InitOK (Display.Display (busFailAt 30)) = true ↔
            ∀ k, k < 42 → busFailAt 30 k = true) := by
  have h1 : Display.InitOK (Display.Display (busFailAt 30)) = true := by
    rw [ctor_eq]; decide
  have h2 : (sendCmds (busFailAt 30) initCmds fresh).1 =
      [true, true, true, true, true, false, true] := by
    simp only [sendCmds, initCmds, lcd_send_byte_eq, fresh]
    decide
  refine ⟨h1, h2, ?_, ?_⟩
  · rw [h1, h2]; decide
  · rw [h1]
    intro h
    exact absurd (h.mp rfl 30 (by decide)) (by decide)

/-- C4, amended: for every bus, after construction `InitOK()` equals the logical AND of
the results of the first five steps of the initialisation (the three `0x03` commands,
the `0x02` command and display-on); equivalently it is true exactly when each of the
first thirty bus writes of the construction succeeded.  The results of clear-display
and return-home do not enter the flag. -/
theorem InitOK_first_five_steps (hal : Nat → Bool) :
    Display.InitOK (Display.Display hal) =
        (sendCmds hal [0x03, 0x03, 0x03, 0x02, 0x0C] fresh).1.all id
      ∧ (Display.InitOK (Display.Display hal) = true ↔ ∀ k, k < 30 → hal k = true) := by
  have h : Display.InitOK (Display.Display hal) = success hal 0 30 := by
    rw [ctor_eq]; rfl
  refine ⟨?_, ?_⟩
  · rw [h, sendCmds_all]; rfl
  · rw [h, success_iff]
    simp

/-- C5: for every bus, the constructor sends exactly the seven commands `0x03`, `0x03`,
`0x03`, `0x02`, `0x0C` (display control with display on), `0x01` (clear display), `0x02`
(return home), in this order and with mode Command, and nothing else: its event trace
is the concatenation of the `lcd_send_byte` traces of these commands, 42 bus writes. -/
theorem constructor_sends_seven_commands (hal : Nat → Bool) :
    (Display.Display hal).trace = cmdsEvents 0x08 initCmds
      ∧ (Display.Display hal).trace = (sendCmds hal initCmds fresh).2.trace
      ∧ initCmds = [0x03, 0x03, 0x03, 0x02, LCD_DISPLAYCONTROL ||| LCD_DISPLAYON,
                    LCD_CLEARDISPLAY, LCD_RETURNHOME]
      ∧ (writes (Display.Display hal).trace).length = 42
      ∧ (Display.Display hal).count = 42
      ∧ (Display.Display hal).errors = [] := by
  have hb256 : (0x08 : Nat) < 256 := by decide
  refine ⟨by rw [ctor_eq], ?_, by decide, ?_, by rw [ctor_eq], by rw [ctor_eq]⟩
  · rw [ctor_eq, sendCmds_state]
    simp only [fresh, LCD_BACKLIGHT, rawCmds_eq hb256, List.nil_append]
  · rw [ctor_eq]
    simp only [writes_cmdsEvents_length]
    rfl

/-- C6: for every valid line and every on-screen column `0 ≤ column ≤ 19`,
`Move(column, line)` issues exactly one command byte, `0x80 | (column + rowBase(line))`
with `rowBase` = `0x00`, `0x40`, `0x14`, `0x54` for the four lines, and does not enter
`Error`. -/
theorem Move_valid_line (hal : Nat → Bool) (x y : Int) (s : St)
    (hy : validLine y) (h0 : 0 ≤ x) (h19 : x ≤ 19)
    (hb : s.dev.m_backLight = LCD_BACKLIGHT) :
    Display.Move hal x y s =
        (Display.lcd_send_cmd hal (LCD_SETDDRAMADDR ||| (x.toNat + rowBase y)) s).2
      ∧ (Display.Move hal x y s).trace =
          s.trace ++ byteEvents 0x08 (0x80 ||| (x.toNat + rowBase y)) LCD_CMD
      ∧ (Display.Move hal x y s).count = s.count + 6
      ∧ (Display.Move hal x y s).errors = s.errors
      ∧ rowBase LINE1 = 0x00 ∧ rowBase LINE2 = 0x40 ∧ rowBase LINE3 = 0x14
      ∧ rowBase LINE4 = 0x54 := by
  have hb256 : (0x08 : Nat) < 256 := by decide
  have hm := Move_valid_eq hal x y s hy
  rw [move_addr x y hy h0 h19] at hm
  refine ⟨?_, ?_, ?_, ?_, by decide, by decide, by decide, by decide⟩
  · rw [hm, lcd_send_cmd_eq]
  · rw [hm, hb]
    simp only [LCD_BACKLIGHT, LCD_SETDDRAMADDR]
    rw [rawByte_eq (by decide) hb256]
  · rw [hm]
  · rw [hm]

/-- Instances of C6 on a freshly constructed driver: `Move(5, LINE3)` issues `0x99`,
`Move(0, LINE1)` issues `0x80`, `Move(0, LINE2)` issues `0xC0`, `Move(0, LINE4)` issues
`0xD4`. -/
theorem Move_valid_line_witness :
    (Display.Move busOk 5 LINE3 (Display.Display busOk)).trace =
        (Display.Display busOk).trace ++ byteEvents 0x08 0x99 LCD_CMD
      ∧ (Display.Move busOk 0 LINE1 (Display.Display busOk)).trace =
        (Display.Display busOk).trace ++ byteEvents 0x08 0x80 LCD_CMD
      ∧ (Display.Move busOk 0 LINE2 (Display.Display busOk)).trace =
        (Display.Display busOk).trace ++ byteEvents 0x08 0xC0 LCD_CMD
      ∧ (Display.Move busOk 0 LINE4 (Display.Display busOk)).trace =
        (Display.Display busOk).trace ++ byteEvents 0x08 0xD4 LCD_CMD :=
  ⟨(Move_valid_line busOk 5 LINE3 (Display.Display busOk) (by decide) (by decide)
      (by decide) (by decide)).2.1,
   (Move_valid_line busOk 0 LINE1 (Display.Display busOk) (by decide) (by decide)
      (by decide) (by decide)).2.1,
   (Move_valid_line busOk 0 LINE2 (Display.Display busOk) (by decide) (by decide)
      (by decide) (by decide)).2.1,
   (Move_valid_line busOk 0 LINE4 (Display.Display busOk) (by decide) (by decide)
      (by decide) (by decide)).2.1⟩

/-- C7 fails at `Move(1, (LINE)4)` on a freshly constructed driver: `Error` is entered
once, with the message "Illegal choice 4 in Move", and afterwards the column is sent as a
command of its own, here `0x01` (clear display); the trace of `Move` is therefore not
the trace of the `Error` call. -/
theorem Move_invalid_line_falls_through :
    (Display.Move busOk 1 4 (Display.Display busOk)).trace =
        (Display.Error busOk (sprintf_Illegal 4) (Display.Display busOk)).trace
          ++ byteEvents 0x08 0x01 LCD_CMD
      ∧ (Display.Move busOk 1 4 (Display.Display busOk)).errors = [sprintf_Illegal 4]
      ∧ sprintf_Illegal 4 = chars "Illegal choice 4 in Move"
      ∧ (Display.Move busOk 1 4 (Display.Display busOk)).trace ≠
          (Display.Error busOk (sprintf_Illegal 4) (Display.Display busOk)).trace := by
  have hb256 : (0x08 : Nat) < 256 := by decide
  have hv : ¬ validLine 4 := by decide
  have hbl : (Display.Error busOk (sprintf_Illegal 4) (Display.Display busOk)).dev.m_backLight
      = 0x08 := by
    rw [Error_dev, ctor_eq]
  have ht : (Display.Move busOk 1 4 (Display.Display busOk)).trace =
      (Display.Error busOk (sprintf_Illegal 4) (Display.Display busOk)).trace
        ++ byteEvents 0x08 0x01 LCD_CMD := by
    rw [Move_invalid_eq busOk 1 4 _ hv, lcd_send_cmd_eq]
    simp only [hbl]
    rw [← rawByte_eq (by decide : LCD_CMD < 256) hb256]
    rfl
  refine ⟨ht, ?_, by decide, ?_⟩
  · rw [Move_invalid_eq busOk 1 4 _ hv, lcd_send_cmd_eq, Error_eq, ctor_eq]
    rfl
  · rw [ht]
    intro h
    have h2 := List.append_right_eq_self.mp h
    exact absurd h2 (by decide)

/-- C8: for every message and every bus, the trace of `Error(msg)` on a driver whose
backlight field is `0x08` is the trace of the single command `0xD4` (cursor to the last
line, first column) followed by the trace of `Send(msg)`: the characters of `msg` in
order with mode Character, and nothing else. -/
theorem Error_trace (hal : Nat → Bool) (msg : List Nat) (s : St)
    (hb : s.dev.m_backLight = LCD_BACKLIGHT) :
    (Display.Error hal msg s).trace =
        (Display.Send hal msg (Display.lcd_send_cmd hal 0xD4 s).2).2.trace
      ∧ (Display.Error hal msg s).trace =
          s.trace ++ byteEvents 0x08 0xD4 LCD_CMD ++ textEvents 0x08 (cstr msg)
      ∧ (Display.Error hal msg s).count = s.count + 6 + 6 * strlen msg
      ∧ (0xD4 : Nat) = LCD_SETDDRAMADDR ||| (0 + rowBase LINE4) := by
  have hb256 : (0x08 : Nat) < 256 := by decide
  refine ⟨?_, ?_, ?_, by decide⟩
  · rw [Error_eq, Send_eq, lcd_send_cmd_eq]
  · rw [Error_eq, hb]
    simp only [LCD_BACKLIGHT]
    rw [rawByte_eq (by decide) hb256, rawText_eq hb256]
  · rw [Error_eq]

/-- Instance of C8: `Error("E")` on a freshly constructed driver. -/
theorem Error_trace_witness :
    (Display.Error busOk [0x45] (Display.Display busOk)).trace =
      (Display.Display busOk).trace ++ byteEvents 0x08 0xD4 LCD_CMD
        ++ textEvents 0x08 [0x45] :=
  (Error_trace busOk [0x45] (Display.Display busOk) (by rw [ctor_eq]; rfl)).2.1

/-- C9: in every state reachable after construction and for every bus, `Clear()` emits
the same events: the command `0x01`, a 1 ms delay, the command `0x02`, a 1 ms delay.
Two calls in succession emit this sequence twice. -/
theorem Clear_same_events (hal : Nat → Bool) (s : St) (hr : Reachable hal s) :
    (Display.Clear hal s).trace = s.trace ++ clearEvents
      ∧ (Display.Clear hal (Display.Clear hal s)).trace =
          (Display.Clear hal s).trace ++ clearEvents
      ∧ (Display.Clear hal (Display.Clear hal s)).trace =
          (s.trace ++ clearEvents) ++ clearEvents := by
  have hb256 : (0x08 : Nat) < 256 := by decide
  have key : ∀ t : St, Reachable hal t → (Display.Clear hal t).trace = t.trace ++ clearEvents := by
    intro t ht
    rw [Clear_eq, Reachable_backlight hal t ht]
    simp only [LCD_CLEARDISPLAY, LCD_RETURNHOME, rawByte_eq (by decide : LCD_CMD < 256) hb256,
      clearEvents, List.append_assoc]
  have h1 := key s hr
  have h2 := key (Display.Clear hal s) (Reachable.clear s hr)
  exact ⟨h1, h2, by rw [h2, h1]⟩

/-- Instance of C9: `Clear()` right after construction, on a bus whose transmission
number 42 (the first one of this `Clear`) fails. -/
theorem Clear_same_events_witness :
    (Display.Clear (busFailAt 42) (Display.Display (busFailAt 42))).trace =
      (Display.Display (busFailAt 42)).trace ++ clearEvents :=
  (Clear_same_events (busFailAt 42) (Display.Display (busFailAt 42)) Reachable.ctor).1

/-- C10: `Send`, `Move`, `Clear` and `Error` leave both data members of the driver
unchanged, for every input and every bus; hence in every state reachable after
construction the backlight field is `0x08` and `InitOK()` has the value it had when the
constructor returned. -/
theorem public_operations_preserve_fields (hal : Nat → Bool) (s : St) :
    (∀ pData, (Display.Send hal pData s).2.dev = s.dev)
      ∧ (∀ x y, (Display.Move hal x y s).dev = s.dev)
      ∧ (Display.Clear hal s).dev = s.dev
      ∧ (∀ msg, (Display.Error hal msg s).dev = s.dev)
      ∧ (Reachable hal s →
          s.dev.m_backLight = 0x08
            ∧ Display.InitOK s = Display.InitOK (Display.Display hal)) := by
  refine ⟨fun p => Send_dev hal p s, fun x y => Move_dev hal x y s, Clear_dev hal s,
    fun msg => Error_dev hal msg s, fun hr => ⟨Reachable_backlight hal s hr, ?_⟩⟩
  unfold Display.InitOK
  rw [Reachable_dev hal s hr]

/-- Instance of C10: after construction on a bus whose first transmission fails,
`Move(3, (LINE)9)` followed by `Clear()` leaves the backlight at `0x08` and `InitOK()`
false. -/
theorem public_operations_preserve_fields_witness :
    (Display.Clear (busFailAt 0)
        (Display.Move (busFailAt 0) 3 9 (Display.Display (busFailAt 0)))).dev.m_backLight = 0x08
      ∧ Display.InitOK (Display.Clear (busFailAt 0)
          (Display.Move (busFailAt 0) 3 9 (Display.Display (busFailAt 0)))) = false := by
  have h := (public_operations_preserve_fields (busFailAt 0)
    (Display.Clear (busFailAt 0)
      (Display.Move (busFailAt 0) 3 9 (Display.Display (busFailAt 0))))).2.2.2.2
    (Reachable.clear _ (Reachable.move 3 9 _ Reachable.ctor))
  refine ⟨h.1, ?_⟩
  rw [h.2, ctor_eq]
  decide

/-- C11, as the specification states it, fails at `Move(44, LINE4)` on a freshly
constructed driver: `44 + 0xD4` wraps to `0x00`, so the command byte sent is `0x00`, whose
bit 7 is clear, and not `0x80 | ((44 + 0x54) mod 256) = 0x80`. -/
theorem Move_offscreen_column_wraps :
    (Display.Move busOk 44 LINE4 (Display.Display busOk)).trace =
        (Display.Display busOk).trace ++ byteEvents 0x08 0x00 LCD_CMD
      ∧ 0x80 ||| address 44 LINE4 = 0x80
      ∧ (0x00 : Nat) &&& 0x80 ≠ 0x80
      ∧ (Display.Move busOk 44 LINE4 (Display.Display busOk)).trace ≠
          (Display.Display busOk).trace ++ byteEvents 0x08 (0x80 ||| address 44 LINE4) LCD_CMD := by
  have hb256 : (0x08 : Nat) < 256 := by decide
  have hv : validLine LINE4 := by decide
  have hbl : (Display.Display busOk).dev.m_backLight = 0x08 := by rw [ctor_eq]
  have hbyte : u8 (((44 : Int) % 256).toNat + rowConst LINE4) = 0x00 := by decide
  have ht : (Display.Move busOk 44 LINE4 (Display.Display busOk)).trace =
      (Display.Display busOk).trace ++ byteEvents 0x08 0x00 LCD_CMD := by
    rw [Move_valid_eq busOk 44 LINE4 _ hv, hbl, hbyte,
      rawByte_eq (by decide : LCD_CMD < 256) hb256]
  have ha : 0x80 ||| address 44 LINE4 = 0x80 := by decide
  refine ⟨ht, ha, by decide, ?_⟩
  rw [ht, ha]
  intro h
  exact absurd (List.append_cancel_left h) (by decide)

/-- C11, amended: for every integer column and every valid line, `Move(column, line)`
sends the single command byte `(a + 0x80) mod 256`, where
`a = (column + rowBase(line)) mod 256`; this is `a` with bit 7 inverted.  It equals
`0x80 | a`, and has bit 7 set, exactly when `a < 0x80`. -/
theorem Move_command_byte (hal : Nat → Bool) (x y : Int) (s : St)
    (hy : validLine y) (hb : s.dev.m_backLight = LCD_BACKLIGHT) :
    Display.Move hal x y s =
        (Display.lcd_send_cmd hal ((address x y + 0x80) % 256) s).2
      ∧ (Display.Move hal x y s).trace =
          s.trace ++ byteEvents 0x08 ((address x y + 0x80) % 256) LCD_CMD
      ∧ (Display.Move hal x y s).errors = s.errors
      ∧ (address x y + 0x80) % 256 = address x y ^^^ 0x80
      ∧ ((address x y + 0x80) % 256 = LCD_SETDDRAMADDR ||| address x y ↔ address x y < 0x80)
      ∧ (((address x y + 0x80) % 256) &&& 0x80 = 0x80 ↔ address x y < 0x80) := by
  have hb256 : (0x08 : Nat) < 256 := by decide
  have hm := Move_valid_eq hal x y s hy
  rw [move_byte x y hy] at hm
  have hf := flip_bit7 (address x y) (address_lt x y)
  refine ⟨?_, ?_, ?_, hf.2.2, hf.1, hf.2.1⟩
  · rw [hm, lcd_send_cmd_eq]
  · rw [hm, hb]
    simp only [LCD_BACKLIGHT]
    rw [rawByte_eq (by decide) hb256]
  · rw [hm]

/-- Instance of C11 amended: `Move(-1, LINE2)` on a freshly constructed driver sends
`0xBF`, that is `0xC0 - 1`. -/
theorem Move_command_byte_witness :
    (Display.Move busOk (-1) LINE2 (Display.Display busOk)).trace =
      (Display.Display busOk).trace ++ byteEvents 0x08 0xBF LCD_CMD :=
  (Move_command_byte busOk (-1) LINE2 (Display.Display busOk) (by decide) (by decide)).2.1

/-- C12: the pair `Move`/`Error` always returns, and `Error` is never entered from within
`Error`.  For every bus, state, message, column and line value: `Error(msg)` returns after
`6 + 6 * strlen(msg)` bus writes with exactly one entry (its own) added to the log of
`Error` calls; `Move` on a valid line returns after 6 writes without entering `Error`;
`Move` on any other line value returns after `12 + 6 * strlen(buf)` writes having entered
`Error` exactly once; so a call of `Move` enters `Error` at most once.  The line used by
`Error` is `LINE4`, a valid one. -/
theorem Error_does_not_recurse (hal : Nat → Bool) (s : St) :
    (∀ msg, (Display.Error hal msg s).errors = s.errors ++ [msg]
        ∧ (Display.Error hal msg s).count = s.count + 6 + 6 * strlen msg)
      ∧ (∀ x y, validLine y →
          (Display.Move hal x y s).errors = s.errors
            ∧ (Display.Move hal x y s).count = s.count + 6)
      ∧ (∀ x y, ¬ validLine y →
          (Display.Move hal x y s).errors = s.errors ++ [sprintf_Illegal y]
            ∧ (Display.Move hal x y s).count =
                s.count + 12 + 6 * strlen (sprintf_Illegal y))
      ∧ (∀ x y, (Display.Move hal x y s).errors.length ≤ s.errors.length + 1)
      ∧ validLine LINE4 := by
  have hval : ∀ x y, validLine y →
      (Display.Move hal x y s).errors = s.errors
        ∧ (Display.Move hal x y s).count = s.count + 6 := by
    intro x y hy
    rw [Move_valid_eq hal x y s hy]
    exact ⟨rfl, rfl⟩
  have hinv : ∀ x y, ¬ validLine y →
      (Display.Move hal x y s).errors = s.errors ++ [sprintf_Illegal y]
        ∧ (Display.Move hal x y s).count =
            s.count + 12 + 6 * strlen (sprintf_Illegal y) := by
    intro x y hy
    rw [Move_invalid_eq hal x y s hy, lcd_send_cmd_eq, Error_eq]
    refine ⟨rfl, ?_⟩
    show s.count + 6 + 6 * strlen (sprintf_Illegal y) + 6 = _
    omega
  refine ⟨fun msg => ?_, hval, hinv, fun x y => ?_, by decide⟩
  · rw [Error_eq]
    exact ⟨rfl, rfl⟩
  · by_cases hy : validLine y
    · rw [(hval x y hy).1]
      omega
    · rw [(hinv x y hy).1]
      simp

/-- Instance of C12: `Move(0, (LINE)(-1))` on a freshly constructed driver enters `Error`
once, with the message "Illegal choice -1 in Move". -/
theorem Error_does_not_recurse_witness :
    (Display.Move busOk 0 (-1) (Display.Display busOk)).errors =
      [chars "Illegal choice -1 in Move"] := by
  have h := ((Error_does_not_recurse busOk (Display.Display busOk)).2.2.1 0 (-1)
    (by decide)).1
  rw [h, ctor_eq]
  decide

/-- C13: the events do not depend on the bus.  For any two buses and any sequence of
public calls after construction, the two runs hand the same bytes to the bus and request
the same delays, in the same order (the whole event traces coincide, and so do the
constructor's traces); the number of writes, the log of `Error` calls and the backlight
field coincide as well.  The initialised flag and the boolean results can differ. -/
theorem trace_independent_of_bus (hal1 hal2 : Nat → Bool) (ops : List Op) :
    (run hal1 ops).trace = (run hal2 ops).trace
      ∧ writes (run hal1 ops).trace = writes (run hal2 ops).trace
      ∧ delays (run hal1 ops).trace = delays (run hal2 ops).trace
      ∧ (Display.Display hal1).trace = (Display.Display hal2).trace
      ∧ (run hal1 ops).count = (run hal2 ops).count
      ∧ (run hal1 ops).errors = (run hal2 ops).errors
      ∧ (run hal1 ops).dev.m_backLight = (run hal2 ops).dev.m_backLight
      ∧ Display.InitOK (run busOk []) ≠ Display.InitOK (run (busFailAt 0) [])
      ∧ (Display.Send busOk [0x41] (run busOk [])).1
          ≠ (Display.Send (busFailAt 42) [0x41] (run (busFailAt 42) [])).1 := by
  have ht : (run hal1 ops).trace = (run hal2 ops).trace := by
    rw [run_trace, run_trace]
  have hr := foldl_rel hal1 hal2 ops (Display.Display hal1) (Display.Display hal2)
    (by rw [ctor_eq, ctor_eq]) (by rw [ctor_eq, ctor_eq])
  refine ⟨ht, by rw [ht], by rw [ht], ?_, hr.1, hr.2, ?_, ?_, ?_⟩
  · rw [ctor_eq, ctor_eq]
  · rw [Reachable_backlight hal1 _ (run_reachable hal1 ops),
      Reachable_backlight hal2 _ (run_reachable hal2 ops)]
  · simp only [run, List.foldl_nil, ctor_eq, Display.InitOK]
    decide
  · simp only [run, List.foldl_nil, ctor_eq, Send_eq]
    decide

/-- C14: every byte written to the bus during the life of a driver (construction, then
any sequence of `Send`, `Move` with any column and line value, `Clear`, `Error`) belongs to
a logical byte `v < 256` sent in mode `m`, Command or Character, and respects the pin
mapping relative to it: bit 1 is 0, bit 3 is 1, bit 0 is `m`, bits 4-7 are a nibble of
`v`. -/
theorem pin_mapping (hal : Nat → Bool) (ops : List Op) :
    (run hal ops).trace = itemsEvents (ctorItems ++ progItems ops)
      ∧ (∀ v m, Item.byte v m ∈ ctorItems ++ progItems ops →
          v < 256 ∧ (m = LCD_CMD ∨ m = LCD_CHR))
      ∧ (∀ b, b ∈ writes (run hal ops).trace →
          ∃ v m, Item.byte v m ∈ ctorItems ++ progItems ops
            ∧ b ∈ writes (byteEvents 0x08 v m) ∧ pinOk v m b) := by
  have hok : ∀ v m, Item.byte v m ∈ ctorItems ++ progItems ops →
      v < 256 ∧ (m = LCD_CMD ∨ m = LCD_CHR) := by
    intro v m h
    rcases List.mem_append.mp h with h | h
    · exact mem_ctorItems v m h
    · exact mem_progItems v m ops h
  refine ⟨run_trace hal ops, hok, ?_⟩
  intro b hb
  rw [run_trace] at hb
  obtain ⟨v, m, hmem, hbw⟩ := mem_writes_itemsEvents b _ hb
  have h := hok v m hmem
  have hm2 : m < 2 := by rcases h.2 with e | e <;> simp [e, LCD_CMD, LCD_CHR]
  exact ⟨v, m, hmem, hbw, pin_byte v h.1 m hm2 b hbw⟩

/-- Instance of C14: the byte `0x1D` written while `Send("A")` runs after construction
is the enable-high write of the low nibble of the character `0x41`. -/
theorem pin_mapping_witness :
    ∃ v m, Item.byte v m ∈ ctorItems ++ progItems [Op.send [0x41]]
      ∧ 0x1D ∈ writes (byteEvents 0x08 v m) ∧ pinOk v m 0x1D :=
  (pin_mapping busOk [Op.send [0x41]]).2.2 0x1D (by rw [run_trace]; decide)

/-- C15: for every value, mode, state and bus, `lcd_send_byte` issues exactly nine
events, three of them delay requests, each of 1 ms: write, write with enable high, delay,
write (first nibble); write, write with enable high, delay, write (second nibble); delay.
So each handshake has its delay after the enable-high write and before the closing write,
and the last delay follows the last bus write. -/
theorem lcd_send_byte_timing (hal : Nat → Bool) (v m : Nat) (s : St) :
    (Display.lcd_send_byte hal v m s).2.trace =
        s.trace ++
          [Event.write (u8 ((m ||| (v &&& 0xF0)) ||| s.dev.m_backLight)),
           Event.write (u8 (u8 ((m ||| (v &&& 0xF0)) ||| s.dev.m_backLight) ||| LCD_ENABLE_BIT)),
           Event.delay 1,
           Event.write (u8 ((m ||| (v &&& 0xF0)) ||| s.dev.m_backLight)),
           Event.write (u8 ((m ||| ((v <<< 4) &&& 0xF0)) ||| s.dev.m_backLight)),
           Event.write
             (u8 (u8 ((m ||| ((v <<< 4) &&& 0xF0)) ||| s.dev.m_backLight) ||| LCD_ENABLE_BIT)),
           Event.delay 1,
           Event.write (u8 ((m ||| ((v <<< 4) &&& 0xF0)) ||| s.dev.m_backLight)),
           Event.delay 1]
      ∧ delays (Display.lcd_send_byte hal v m s).2.trace = delays s.trace ++ [1, 1, 1]
      ∧ (Display.send_nibble hal v s).2.trace =
          s.trace ++ [Event.write v, Event.write (u8 (v ||| LCD_ENABLE_BIT)), Event.delay 1,
                      Event.write v]
      ∧ (1 : Nat) ≠ 0 := by
  have ht : (Display.lcd_send_byte hal v m s).2.trace =
      s.trace ++ rawByte s.dev.m_backLight v m := by
    rw [lcd_send_byte_eq]
  have hd : ∀ a b : List Event, delays (a ++ b) = delays a ++ delays b := by
    intro a b
    induction a with
    | nil => rfl
    | cons e t ih => cases e <;> simp [delays, ih]
  refine ⟨?_, ?_, ?_, by decide⟩
  · rw [ht]
    simp [rawByte, rawNibble]
  · rw [ht, hd]
    simp [rawByte, rawNibble, delays]
  · rw [send_nibble_eq]
    rfl

/-- C16: the nibble encoding is lossless.  For byte values `v`, `w` and modes `m`, `n` in
`{0, 1}`, on a driver whose backlight field is `0x08`: with `a` and `b` the first and the
second packed byte written by `lcd_send_byte(v, m)`, `(a & 0xF0) | (b >> 4) = v` and
`(a & 0x01) = (b & 0x01) = m`; and if `lcd_send_byte(v, m)` and `lcd_send_byte(w, n)`,
started in the same state, write the same bytes, then `v = w` and `m = n`. -/
theorem nibble_encoding_lossless (hal hal' : Nat → Bool) (v m w n : Nat) (s : St)
    (hv : v < 256) (hm : m = LCD_CMD ∨ m = LCD_CHR)
    (hw : w < 256) (hn : n = LCD_CMD ∨ n = LCD_CHR)
    (hb : s.dev.m_backLight = LCD_BACKLIGHT) :
    writes (Display.lcd_send_byte hal v m s).2.trace =
        writes s.trace ++
          [(m ||| (v &&& 0xF0)) ||| 0x08, ((m ||| (v &&& 0xF0)) ||| 0x08) ||| 0x04,
           (m ||| (v &&& 0xF0)) ||| 0x08,
           (m ||| ((v <<< 4) &&& 0xF0)) ||| 0x08,
           ((m ||| ((v <<< 4) &&& 0xF0)) ||| 0x08) ||| 0x04,
           (m ||| ((v <<< 4) &&& 0xF0)) ||| 0x08]
      ∧ (((m ||| (v &&& 0xF0)) ||| 0x08) &&& 0xF0)
          ||| (((m ||| ((v <<< 4) &&& 0xF0)) ||| 0x08) >>> 4) = v
      ∧ ((m ||| (v &&& 0xF0)) ||| 0x08) &&& 0x01 = m
      ∧ ((m ||| ((v <<< 4) &&& 0xF0)) ||| 0x08) &&& 0x01 = m
      ∧ (writes (Display.lcd_send_byte hal v m s).2.trace =
            writes (Display.lcd_send_byte hal' w n s).2.trace → v = w ∧ m = n) := by
  have hb256 : (0x08 : Nat) < 256 := by decide
  have hm2 : m < 2 := by rcases hm with e | e <;> simp [e, LCD_CMD, LCD_CHR]
  have hn2 : n < 2 := by rcases hn with e | e <;> simp [e, LCD_CMD, LCD_CHR]
  have key : ∀ (h : Nat → Bool) (x k : Nat), k < 2 →
      writes (Display.lcd_send_byte h x k s).2.trace =
        writes s.trace ++ writes (byteEvents 0x08 x k) := by
    intro h x k hk
    rw [lcd_send_byte_eq, hb]
    simp only [LCD_BACKLIGHT]
    rw [rawByte_eq (by omega) hb256, writes_append]
  have d := packed_decode v hv m hm2
  refine ⟨?_, d.1, d.2.1, d.2.2, ?_⟩
  · rw [key hal v m hm2, writes_byteEvents]
  · intro h
    rw [key hal v m hm2, key hal' w n hn2] at h
    exact writes_byteEvents_inj hv hm2 hw hn2 (List.append_cancel_left h)

/-- Instance of C16: the character `0x41` and the command `0x41`, sent from the state
left by the constructor, do not write the same bytes. -/
theorem nibble_encoding_lossless_witness :
    writes (Display.lcd_send_byte busOk 0x41 LCD_CHR (Display.Display busOk)).2.trace ≠
      writes (Display.lcd_send_byte busOk 0x41 LCD_CMD (Display.Display busOk)).2.trace :=
  fun h =>
    absurd ((nibble_encoding_lossless busOk busOk 0x41 LCD_CHR 0x41 LCD_CMD
      (Display.Display busOk) (by decide) (Or.inr rfl) (by decide) (Or.inl rfl)
      (by decide)).2.2.2.2 h).2 (by decide)

/-- C17: cursor addressing is injective on the visible screen.  For columns `c1`, `c2` in
`0..19` and valid lines `l1`, `l2`, on a driver whose backlight field is `0x08`: if
`Move(c1, l1)` and `Move(c2, l2)`, started in the same state, write the same bytes (that
is, send the same command byte), then `c1 = c2` and `l1 = l2`; likewise two on-screen
cells with the same display-data-RAM address `column + rowBase(line)` are the same cell. -/
theorem Move_injective_on_screen (hal hal' : Nat → Bool) (c1 c2 l1 l2 : Int) (s : St)
    (h1 : 0 ≤ c1 ∧ c1 ≤ 19) (h2 : 0 ≤ c2 ∧ c2 ≤ 19)
    (hl1 : validLine l1) (hl2 : validLine l2)
    (hb : s.dev.m_backLight = LCD_BACKLIGHT) :
    (writes (Display.Move hal c1 l1 s).trace = writes (Display.Move hal' c2 l2 s).trace →
        c1 = c2 ∧ l1 = l2)
      ∧ (c1.toNat + rowBase l1 = c2.toNat + rowBase l2 → c1 = c2 ∧ l1 = l2) := by
  have hb256 : (0x08 : Nat) < 256 := by decide
  have hinj := onscreen_inj c1 c2 l1 l2 h1.1 h1.2 h2.1 h2.2 hl1 hl2
  have key : ∀ (h : Nat → Bool) (c l : Int), validLine l →
      writes (Display.Move h c l s).trace =
        writes s.trace ++ writes (byteEvents 0x08 (u8 ((c % 256).toNat + rowConst l)) LCD_CMD) := by
    intro h c l hl
    rw [Move_valid_eq h c l s hl, hb]
    simp only [LCD_BACKLIGHT]
    rw [rawByte_eq (by decide) hb256, writes_append]
  refine ⟨?_, hinj.2⟩
  intro h
  rw [key hal c1 l1 hl1, key hal' c2 l2 hl2] at h
  have hbyte := (writes_byteEvents_inj (u8_lt _) (by decide) (u8_lt _) (by decide)
    (List.append_cancel_left h)).1
  rw [onscreen_byte c1 l1 hl1 h1.1 h1.2, onscreen_byte c2 l2 hl2 h2.1 h2.2] at hbyte
  exact hinj.1 hbyte

/-- Instance of C17: `Move(19, LINE1)` and `Move(0, LINE3)`, the neighbouring addresses
`0x13` and `0x14`, do not write the same bytes after construction. -/
theorem Move_injective_on_screen_witness :
    writes (Display.Move busOk 19 LINE1 (Display.Display busOk)).trace ≠
      writes (Display.Move busOk 0 LINE3 (Display.Display busOk)).trace :=
  fun h =>
    absurd ((Move_injective_on_screen busOk busOk 19 0 LINE1 LINE3 (Display.Display busOk)
      (by decide) (by decide) (by decide) (by decide) (by decide)).1 h).1 (by decide)

end LCD2004
